import Mathlib

/-!
Verification of the twitch-ranking repository's snapshot-aggregation and
classification engine, shallowly embedded from the Python source.

Numeric model: counts, ranks and timestamps are natural numbers; deltas are
integers; the float arithmetic of the source (divisions, weighted sums) is
modelled exactly over the rationals.

Sources embedded:
- `analyze_twitch_history.py` : `prepare_metrics`, `detect_struggling_categories`
- `dashboard.py` : `load_history` (competition index), `classify_growth_type`,
  `build_summary`, and the sort/limit step of `main`.
-/

namespace TwitchRanking

/-- One category row of one snapshot: `{rank, name, streamers, viewers}` plus
the snapshot timestamp attached by the loader. Timestamps are modelled as
naturals (the source's datetimes are totally ordered). -/
structure Obs where
  name : String
  streamers : Nat
  viewers : Nat
  rank : Nat
  time : Nat
deriving DecidableEq, Repr

/-- Embeds `prepare_metrics` of `analyze_twitch_history.py`:
`viewers / streamers if streamers > 0 else 0`, per row. -/
def competitionIndexAnalyze (streamers viewers : Nat) : ℚ :=
  if streamers > 0 then (viewers : ℚ) / (streamers : ℚ) else 0

/-- Embeds the derivation of `load_history` in `dashboard.py`:
`viewers / streamers.replace(0, 1)` — a zero denominator is replaced by 1. -/
def competitionIndexDashboard (streamers viewers : Nat) : ℚ :=
  (viewers : ℚ) / (if streamers = 0 then 1 else (streamers : ℚ))

/-- The four labels returned by `classify_growth_type` in `dashboard.py`
(rapid 急成長, growth 成長, flat 横ばい, decline 下降). -/
inductive GrowthType
  | rapid
  | growth
  | flat
  | decline
deriving DecidableEq, Repr

/-- Embeds `classify_growth_type` of `dashboard.py`: first matching rule wins.
The float thresholds 0.8, 0.3, -0.1 are modelled as the rationals they denote. -/
def classify_growth_type (growthRate : ℚ) (rankImprove : Int) : GrowthType :=
  if growthRate > 4/5 ∧ rankImprove > 15 then GrowthType.rapid
  else if growthRate > 3/10 ∧ rankImprove > 5 then GrowthType.growth
  else if growthRate > -(1/10) then GrowthType.flat
  else GrowthType.decline

/-- The five market-type labels of the spec's 4-quadrant + stable taxonomy. -/
inductive MarketType
  | demandOutpacingSupply
  | growing
  | oversupplied
  | declining
  | stable
deriving DecidableEq, Repr

/-- Modelled from the spec: the full five-label market-type classifier of §4.3
is not present in the files under src/ — only its oversupplied quadrant is
realised in code, as the filter of `detect_struggling_categories` in
`analyze_twitch_history.py`. The table: (<0,>0) demand-outpacing-supply,
(>0,>0) growing, (>0,<0) oversupplied, (<0,<0) declining, otherwise stable. -/
def marketType (streamerDelta viewerDelta : Int) : MarketType :=
  if streamerDelta < 0 ∧ viewerDelta > 0 then MarketType.demandOutpacingSupply
  else if streamerDelta > 0 ∧ viewerDelta > 0 then MarketType.growing
  else if streamerDelta > 0 ∧ viewerDelta < 0 then MarketType.oversupplied
  else if streamerDelta < 0 ∧ viewerDelta < 0 then MarketType.declining
  else MarketType.stable

/-- Ordering of observations by snapshot time, the key of
`df.sort_values("snapshot")`. -/
def timeLE (a b : Obs) : Prop := a.time ≤ b.time

instance : DecidableRel timeLE := fun a b => Nat.decLe a.time b.time

instance : IsTotal Obs timeLE := ⟨fun a b => Nat.le_total a.time b.time⟩

instance : IsTrans Obs timeLE := ⟨fun _ _ _ h1 h2 => Nat.le_trans h1 h2⟩

/-- Embeds `df.sort_values("snapshot")`: a stable sort of the rows by snapshot time
(pandas keeps equal keys in input order on these small frames). -/
def sortByTime (df : List Obs) : List Obs := List.insertionSort timeLE df

/-- The rows of one category, in the row order of `df` (`groupby` preserves
the frame's row order inside each group). -/
def partitionOf (df : List Obs) (n : String) : List Obs :=
  df.filter fun o => o.name == n

/-- One category's rows after `df.sort_values("snapshot")`, i.e. its
time-ascending series. -/
def partitionSorted (df : List Obs) (n : String) : List Obs :=
  partitionOf (sortByTime df) n

/-- The distinct category names of the frame (the group keys of
`groupby("name")`; pandas emits them name-sorted, but no claim depends on the
order of the summary rows, only on which categories appear). -/
def groupNames (df : List Obs) : List String :=
  (df.map Obs.name).dedup

/-- Sum of a list of rationals. -/
def qsum (l : List ℚ) : ℚ := l.foldr (· + ·) 0

/-- Arithmetic mean, as used by the `"mean"` aggregations. -/
def meanQ (l : List ℚ) : ℚ := qsum l / (l.length : ℚ)

/-- Sample variance with Bessel's correction, the square of pandas `"std"`
(ddof = 1): `none` models the NaN pandas yields for a single observation.
The reported standard deviation is the square root of this value; it is 0
exactly when this value is 0, so the claims about a zero stddev are settled
on the variance. -/
def sampleVar (l : List ℚ) : Option ℚ :=
  if l.length ≤ 1 then none
  else some (qsum (l.map fun x => (x - meanQ l) ^ 2) / ((l.length : ℚ) - 1))

/-- Embeds the `Series.idxmax` semantics: the first row (in the list's order) attaining
the maximum viewer count; `none` only on the empty list. -/
def firstMaxBy : List Obs → Option Obs
  | [] => none
  | o :: rest =>
    match firstMaxBy rest with
    | none => some o
    | some b => if b.viewers > o.viewers then some b else some o

/-- One output row of `build_summary` in `dashboard.py`, with the columns the
claims are about (unrounded values: the growth type and score are computed
before the final rounding step of the source). -/
structure CategorySummary where
  category : String
  count : Nat
  sumViewers : Nat
  sumStreamers : Nat
  meanViewers : ℚ
  maxViewers : Nat
  meanComp : ℚ
  viewersVar : Option ℚ
  first : Obs
  last : Obs
  peak : Obs
  viewerDelta : Int
  rankDelta : Int
  growthRate : ℚ
  growthScore : ℚ
  growthType : GrowthType
deriving DecidableEq, Repr

/-- The summary row `build_summary` produces for a category whose
time-sorted series is `f :: rest`; `df` is the full frame, needed because the
peak (`idxmax`) is taken over the unsorted frame's row order. -/
def mkSummary (df : List Obs) (n : String) (f : Obs) (rest : List Obs) :
    CategorySummary :=
  let g := f :: rest
  let l := g.getLast (List.cons_ne_nil f rest)
  let raw := partitionOf df n
  let pk := (firstMaxBy raw).getD f
  let viewersQ := g.map fun o => (o.viewers : ℚ)
  let mComp := meanQ (g.map fun o => competitionIndexDashboard o.streamers o.viewers)
  let vDelta : Int := (l.viewers : Int) - (f.viewers : Int)
  let rDelta : Int := (f.rank : Int) - (l.rank : Int)
  let gRate : ℚ := (vDelta : ℚ) / (if f.viewers = 0 then 1 else (f.viewers : ℚ))
  { category := n
    count := g.length
    sumViewers := (g.map Obs.viewers).sum
    sumStreamers := (g.map Obs.streamers).sum
    meanViewers := meanQ viewersQ
    maxViewers := (g.map Obs.viewers).foldr max 0
    meanComp := mComp
    viewersVar := sampleVar viewersQ
    first := f
    last := l
    peak := pk
    viewerDelta := vDelta
    rankDelta := rDelta
    growthRate := gRate
    growthScore := gRate * 50 +
      ((rDelta : ℚ) / (if f.rank = 0 then 1 else (f.rank : ℚ))) * 30 + mComp * 2
    growthType := classify_growth_type gRate rDelta }

/-- The summary row of one category name: `none` when the category has no
rows (such a name never reaches `build_summary`, whose group keys all have at
least one row). -/
def summarize (df : List Obs) (n : String) : Option CategorySummary :=
  match partitionSorted df n with
  | [] => none
  | f :: rest => some (mkSummary df n f rest)

/-- Embeds `build_summary` of `dashboard.py`: one summary row per distinct category
name of the frame. -/
def buildSummary (df : List Obs) : List CategorySummary :=
  (groupNames df).filterMap fun n => summarize df n

/-- The reported viewer-count dispersion after `fillna(0)`: the NaN of a
single-observation category becomes 0 (this is the squared standard
deviation; it vanishes exactly when the standard deviation does). -/
def viewersVarFilled (s : CategorySummary) : ℚ := s.viewersVar.getD 0

/-- The filter of `detect_struggling_categories`:
`streamers_last > streamers_first and viewers_last < viewers_first`. -/
def strugglingCond (f l : Obs) : Bool :=
  decide (f.streamers < l.streamers) && decide (l.viewers < f.viewers)

/-- The struggling test of one category: `strugglingCond` on the first and
last rows of its time-sorted series (false for an absent category, which
never arises for a group key). -/
def strugglingAt (df : List Obs) (n : String) : Bool :=
  match partitionSorted df n with
  | [] => false
  | f :: rest => strugglingCond f ((f :: rest).getLast (List.cons_ne_nil f rest))

/-- Embeds `detect_struggling_categories` of `analyze_twitch_history.py`: the names
whose time-sorted series has strictly more streamers and strictly fewer
viewers at its last row than at its first (the output CSV's rows carry these
first/last fields; its final delta-sort is presentational). -/
def detectStruggling (df : List Obs) : List String :=
  (groupNames df).filter fun n => strugglingAt df n

/-- Descending comparison on a numeric summary column, the order of
`sort_values(metric, ascending=False)`. -/
def keyGE (key : CategorySummary → ℚ) (a b : CategorySummary) : Prop :=
  key b ≤ key a

instance (key : CategorySummary → ℚ) : DecidableRel (keyGE key) :=
  fun a b => inferInstanceAs (Decidable (key b ≤ key a))

instance (key : CategorySummary → ℚ) : IsTotal CategorySummary (keyGE key) :=
  ⟨fun a b => le_total (key b) (key a)⟩

instance (key : CategorySummary → ℚ) : IsTrans CategorySummary (keyGE key) :=
  ⟨fun _ _ _ h1 h2 => le_trans h2 h1⟩

/-- Embeds `filtered.sort_values(metric, ascending=False)`: stable descending sort
by the chosen column (pandas keeps equal keys in input order on these small
frames; no secondary sort key appears in the source). -/
def sortDescBy (key : CategorySummary → ℚ) (l : List CategorySummary) :
    List CategorySummary :=
  List.insertionSort (keyGE key) l

/-- The sort-and-truncate step of `main` in `dashboard.py`:
`sort_values(metric, ascending=False)` followed by `.head(top_n)`. -/
def topN (key : CategorySummary → ℚ) (n : Nat) (l : List CategorySummary) :
    List CategorySummary :=
  (sortDescBy key l).take n

/-- Every dropped row's key is at most every kept row's key. -/
def keyDominates (key : CategorySummary → ℚ)
    (kept dropped : List CategorySummary) : Prop :=
  ∀ a ∈ kept, ∀ b ∈ dropped, key b ≤ key a

/-- C7: aggregating an empty Observation collection returns an empty summary
table; `buildSummary` is a total function, so no exception is possible. -/
theorem buildSummary_empty : buildSummary [] = [] := rfl

/-- C1, counterexample: the claim says the derived competition index is 0
whenever `streamer_count = 0`, but the `load_history` derivation of
`dashboard.py` replaces the zero denominator by 1 and returns the viewer
count: at `streamers = 0, viewers = 5` it yields 5, not 0. -/
theorem competitionIndex_zero_policy_cx :
    competitionIndexDashboard 0 5 = 5 ∧ (5 : ℚ) ≠ 0 := by
  refine ⟨?_, by norm_num⟩
  norm_num [competitionIndexDashboard]

/-- C1 (amended): both derivations equal `viewers / streamers` when
`streamers > 0` and are total and non-negative over non-negative integer
counts; at `streamers = 0`, `prepare_metrics` yields 0 while `load_history`
of `dashboard.py` uses the guarded denominator 1 and yields the viewer
count. -/
theorem competitionIndex_characterization (s v : Nat) :
    competitionIndexAnalyze s v = (if 0 < s then (v : ℚ) / (s : ℚ) else 0) ∧
    competitionIndexDashboard s v = (if 0 < s then (v : ℚ) / (s : ℚ) else (v : ℚ)) ∧
    0 ≤ competitionIndexAnalyze s v ∧ 0 ≤ competitionIndexDashboard s v := by
  unfold competitionIndexAnalyze competitionIndexDashboard
  rcases Nat.eq_zero_or_pos s with h | h
  · subst h
    norm_num
  · have hne : s ≠ 0 := Nat.pos_iff_ne_zero.mp h
    simp only [h, hne, if_pos, if_neg, if_true, if_false, gt_iff_lt]
    refine ⟨by simp [hne], by simp [hne], ?_, ?_⟩ <;> positivity

theorem partitionSorted_perm (df : List Obs) (n : String) :
    List.Perm (partitionSorted df n) (partitionOf df n) :=
  (List.perm_insertionSort timeLE df).filter _

theorem partitionSorted_sorted (df : List Obs) (n : String) :
    List.Sorted timeLE (partitionSorted df n) :=
  List.Pairwise.sublist (List.filter_sublist _) (List.sorted_insertionSort timeLE df)

theorem mem_of_mem_partitionOf {df : List Obs} {n : String} {o : Obs}
    (ho : o ∈ partitionOf df n) : o ∈ df ∧ o.name = n := by
  have h := List.mem_filter.mp ho
  exact ⟨h.1, by simpa using h.2⟩

theorem mem_of_mem_partitionSorted {df : List Obs} {n : String} {o : Obs}
    (ho : o ∈ partitionSorted df n) : o ∈ df ∧ o.name = n :=
  mem_of_mem_partitionOf ((partitionSorted_perm df n).mem_iff.mp ho)

theorem name_mem_groupNames {df : List Obs} {o : Obs} (ho : o ∈ df) :
    o.name ∈ groupNames df :=
  List.mem_dedup.mpr (List.mem_map_of_mem Obs.name ho)

theorem exists_of_mem_buildSummary {df : List Obs} {s : CategorySummary}
    (hs : s ∈ buildSummary df) :
    ∃ n f rest, partitionSorted df n = f :: rest ∧ s = mkSummary df n f rest := by
  rcases List.mem_filterMap.mp hs with ⟨n, _, hsum⟩
  unfold summarize at hsum
  cases hp : partitionSorted df n with
  | nil => rw [hp] at hsum; simp at hsum
  | cons f rest =>
    rw [hp] at hsum
    simp only [Option.some.injEq] at hsum
    exact ⟨n, f, rest, hp, hsum.symm⟩

/-- C2: the spec's market-type table is a total function of the two delta
signs, the five labels are mutually exclusive (each is hit exactly on its
quadrant, and stable exactly when a delta is zero), and the oversupplied
quadrant coincides with the struggling filter of
`detect_struggling_categories`, the only quadrant realised in the source. -/
theorem marketType_characterization (sd vd : Int) :
    (marketType sd vd = MarketType.demandOutpacingSupply ↔ sd < 0 ∧ 0 < vd) ∧
    (marketType sd vd = MarketType.growing ↔ 0 < sd ∧ 0 < vd) ∧
    (marketType sd vd = MarketType.oversupplied ↔ 0 < sd ∧ vd < 0) ∧
    (marketType sd vd = MarketType.declining ↔ sd < 0 ∧ vd < 0) ∧
    (marketType sd vd = MarketType.stable ↔ sd = 0 ∨ vd = 0) ∧
    (∀ f l : Obs,
      marketType ((l.streamers : Int) - (f.streamers : Int))
          ((l.viewers : Int) - (f.viewers : Int)) = MarketType.oversupplied ↔
        strugglingCond f l = true) := by
  refine ⟨?_, ?_, ?_, ?_, ?_, ?_⟩
  · unfold marketType; split_ifs <;> simp_all <;> omega
  · unfold marketType; split_ifs <;> simp_all <;> omega
  · unfold marketType; split_ifs <;> simp_all <;> omega
  · unfold marketType; split_ifs <;> simp_all <;> omega
  · unfold marketType; split_ifs <;> simp_all <;> omega
  · intro f l
    unfold marketType strugglingCond
    split_ifs <;> simp_all <;> omega

/-- C4: `classify_growth_type` evaluates its rules in priority order with the
first match winning — rapid iff rate > 0.8 and rank-delta > 15; growth iff
rate > 0.3 and rank-delta > 5 and no earlier rule fired; flat iff
rate > -0.1 and no earlier rule fired; decline otherwise — and a rate of 0.2
with an unchanged rank is flat. -/
theorem classify_growth_type_priority (gr : ℚ) (rd : Int) :
    (classify_growth_type gr rd = GrowthType.rapid ↔ gr > 4/5 ∧ rd > 15) ∧
    (classify_growth_type gr rd = GrowthType.growth ↔
      (gr > 3/10 ∧ rd > 5) ∧ ¬(gr > 4/5 ∧ rd > 15)) ∧
    (classify_growth_type gr rd = GrowthType.flat ↔
      gr > -(1/10) ∧ ¬(gr > 3/10 ∧ rd > 5) ∧ ¬(gr > 4/5 ∧ rd > 15)) ∧
    (classify_growth_type gr rd = GrowthType.decline ↔
      ¬(gr > -(1/10)) ∧ ¬(gr > 3/10 ∧ rd > 5) ∧ ¬(gr > 4/5 ∧ rd > 15)) ∧
    classify_growth_type (1/5) 0 = GrowthType.flat := by
  refine ⟨?_, ?_, ?_, ?_, by unfold classify_growth_type; norm_num⟩ <;>
    · unfold classify_growth_type
      split_ifs <;> simp_all

/-- C10: `detect_struggling_categories` reports a category exactly when its
time-sorted series is non-empty and its last row has strictly more streamers
and strictly fewer viewers than its first row; in particular an unchanged
streamer or viewer count is never reported (the strict inequalities fail). -/
theorem detectStruggling_iff (df : List Obs) (n : String) :
    n ∈ detectStruggling df ↔
      ∃ f l, (partitionSorted df n).head? = some f ∧
        (partitionSorted df n).getLast? = some l ∧
        f.streamers < l.streamers ∧ l.viewers < f.viewers := by
  unfold detectStruggling
  rw [List.mem_filter]
  cases hp : partitionSorted df n with
  | nil =>
    have ha : strugglingAt df n = false := by unfold strugglingAt; rw [hp]
    simp [ha]
  | cons f rest =>
    have ha : strugglingAt df n =
        strugglingCond f ((f :: rest).getLast (List.cons_ne_nil f rest)) := by
      unfold strugglingAt; rw [hp]
    have hf : f ∈ partitionSorted df n := by
      rw [hp]; exact List.mem_cons_self f rest
    have hn : n ∈ groupNames df := by
      have h := mem_of_mem_partitionSorted hf
      exact h.2 ▸ name_mem_groupNames h.1
    rw [ha]
    simp only [List.head?_cons, Option.some.injEq,
      List.getLast?_eq_getLast _ (List.cons_ne_nil f rest), strugglingCond,
      Bool.and_eq_true, decide_eq_true_eq]
    constructor
    · rintro ⟨-, h1, h2⟩
      exact ⟨f, (f :: rest).getLast (List.cons_ne_nil f rest), rfl, rfl, h1, h2⟩
    · rintro ⟨f', l', rfl, rfl, h1, h2⟩
      exact ⟨hn, h1, h2⟩

theorem firstMaxBy_cons (o : Obs) (rest : List Obs) :
    firstMaxBy (o :: rest) =
      match firstMaxBy rest with
      | none => some o
      | some b => if b.viewers > o.viewers then some b else some o := rfl

theorem firstMaxBy_eq_none {l : List Obs} (h : firstMaxBy l = none) : l = [] := by
  cases l with
  | nil => rfl
  | cons o rest =>
    rw [firstMaxBy_cons] at h
    cases hm : firstMaxBy rest with
    | none => rw [hm] at h; simp at h
    | some c => rw [hm] at h; dsimp only at h; split_ifs at h <;> simp at h

theorem firstMaxBy_mem {l : List Obs} {b : Obs} (h : firstMaxBy l = some b) :
    b ∈ l := by
  induction l generalizing b with
  | nil => simp [firstMaxBy] at h
  | cons o rest ih =>
    rw [firstMaxBy_cons] at h
    cases hm : firstMaxBy rest with
    | none =>
      rw [hm] at h
      dsimp only at h
      simp only [Option.some.injEq] at h
      exact h ▸ List.mem_cons_self o rest
    | some c =>
      rw [hm] at h
      dsimp only at h
      split_ifs at h with hv
      · simp only [Option.some.injEq] at h
        exact List.mem_cons_of_mem o (ih (h ▸ hm))
      · simp only [Option.some.injEq] at h
        exact h ▸ List.mem_cons_self o rest

theorem firstMaxBy_max {l : List Obs} {b : Obs} (h : firstMaxBy l = some b) :
    ∀ o ∈ l, o.viewers ≤ b.viewers := by
  induction l generalizing b with
  | nil => simp
  | cons o rest ih =>
    rw [firstMaxBy_cons] at h
    cases hm : firstMaxBy rest with
    | none =>
      have hrest := firstMaxBy_eq_none hm
      subst hrest
      rw [hm] at h
      dsimp only at h
      simp only [Option.some.injEq] at h
      subst h
      simp
    | some c =>
      rw [hm] at h
      dsimp only at h
      split_ifs at h with hv
      · simp only [Option.some.injEq] at h
        subst h
        intro x hx
        rcases List.mem_cons.mp hx with rfl | hx
        · exact le_of_lt hv
        · exact ih hm x hx
      · simp only [Option.some.injEq] at h
        subst h
        intro x hx
        rcases List.mem_cons.mp hx with rfl | hx
        · exact le_refl _
        · exact le_trans (ih hm x hx) (not_lt.mp hv)

theorem firstMaxBy_min_time {l : List Obs} (hsort : List.Sorted timeLE l)
    {b : Obs} (h : firstMaxBy l = some b) :
    ∀ o ∈ l, o.viewers = b.viewers → b.time ≤ o.time := by
  induction l generalizing b with
  | nil => simp
  | cons o rest ih =>
    rw [firstMaxBy_cons] at h
    cases hm : firstMaxBy rest with
    | none =>
      have hrest := firstMaxBy_eq_none hm
      subst hrest
      rw [hm] at h
      dsimp only at h
      simp only [Option.some.injEq] at h
      subst h
      intro x hx _
      rcases List.mem_cons.mp hx with rfl | hx
      · exact le_refl _
      · simp at hx
    | some c =>
      rw [hm] at h
      dsimp only at h
      split_ifs at h with hv
      · simp only [Option.some.injEq] at h
        subst h
        intro x hx hxv
        rcases List.mem_cons.mp hx with rfl | hx
        · omega
        · exact ih hsort.of_cons hm x hx hxv
      · simp only [Option.some.injEq] at h
        subst h
        intro x hx _
        rcases List.mem_cons.mp hx with rfl | hx
        · exact le_refl _
        · exact List.rel_of_sorted_cons hsort x hx

theorem mkSummary_category (df : List Obs) (n : String) (f : Obs)
    (rest : List Obs) : (mkSummary df n f rest).category = n := rfl

theorem mkSummary_first (df : List Obs) (n : String) (f : Obs)
    (rest : List Obs) : (mkSummary df n f rest).first = f := rfl

theorem mkSummary_last (df : List Obs) (n : String) (f : Obs)
    (rest : List Obs) :
    (mkSummary df n f rest).last = (f :: rest).getLast (List.cons_ne_nil f rest) :=
  rfl

theorem mkSummary_peak (df : List Obs) (n : String) (f : Obs)
    (rest : List Obs) :
    (mkSummary df n f rest).peak = (firstMaxBy (partitionOf df n)).getD f := rfl

theorem mkSummary_viewersVar (df : List Obs) (n : String) (f : Obs)
    (rest : List Obs) :
    (mkSummary df n f rest).viewersVar =
      sampleVar ((f :: rest).map fun o => (o.viewers : ℚ)) := rfl

theorem mkSummary_growthScore (df : List Obs) (n : String) (f : Obs)
    (rest : List Obs) :
    (mkSummary df n f rest).growthScore =
      (mkSummary df n f rest).growthRate * 50 +
        (((mkSummary df n f rest).rankDelta : ℚ) /
          (if f.rank = 0 then 1 else (f.rank : ℚ))) * 30 +
        (mkSummary df n f rest).meanComp * 2 := rfl

theorem buildSummary_singleton (o : Obs) :
    buildSummary [o] = [mkSummary [o] o.name o []] := by
  have hp : partitionSorted [o] o.name = [o] := by
    simp [partitionSorted, partitionOf, sortByTime]
  have hs : summarize [o] o.name = some (mkSummary [o] o.name o []) := by
    unfold summarize; rw [hp]
  simp [buildSummary, groupNames, hs]

/-- C6: in any input frame, a category with exactly one observation `o` has a
summary whose reported viewer-count dispersion is 0 (pandas `std` is NaN for
one sample and `fillna(0)` maps it to 0; stated on the squared deviation,
which vanishes iff the standard deviation does) and whose first, last and
peak observations are all that single observation. -/
theorem buildSummary_singleton_category (df : List Obs) (s : CategorySummary)
    (o : Obs) (hs : s ∈ buildSummary df)
    (hp : partitionOf df s.category = [o]) :
    viewersVarFilled s = 0 ∧ s.first = o ∧ s.last = o ∧ s.peak = o := by
  rcases exists_of_mem_buildSummary hs with ⟨n, f, rest, hps, rfl⟩
  rw [mkSummary_category] at hp
  have hperm : List.Perm (f :: rest) [o] := by
    rw [← hps, ← hp]
    exact partitionSorted_perm df n
  have hcons : f :: rest = [o] := List.perm_singleton.mp hperm
  have hf : f = o := (List.cons.injEq f rest o []).mp hcons |>.1
  have hrest : rest = [] := (List.cons.injEq f rest o []).mp hcons |>.2
  subst hf
  subst hrest
  refine ⟨?_, rfl, rfl, ?_⟩
  · simp [viewersVarFilled, mkSummary_viewersVar, sampleVar]
  · rw [mkSummary_peak, hp]
    rfl

/-- Witness for C6 at a concrete three-row, two-category frame in which the
category "a" has exactly one observation. -/
theorem buildSummary_singleton_category_witness :
    (mkSummary [(⟨"a", 1, 10, 1, 1⟩ : Obs), ⟨"c", 2, 8, 2, 1⟩, ⟨"c", 2, 9, 2, 2⟩]
        "a" ⟨"a", 1, 10, 1, 1⟩ [] ∈
      buildSummary [(⟨"a", 1, 10, 1, 1⟩ : Obs), ⟨"c", 2, 8, 2, 1⟩, ⟨"c", 2, 9, 2, 2⟩]) ∧
    partitionOf [(⟨"a", 1, 10, 1, 1⟩ : Obs), ⟨"c", 2, 8, 2, 1⟩, ⟨"c", 2, 9, 2, 2⟩]
      (mkSummary [(⟨"a", 1, 10, 1, 1⟩ : Obs), ⟨"c", 2, 8, 2, 1⟩, ⟨"c", 2, 9, 2, 2⟩]
        "a" ⟨"a", 1, 10, 1, 1⟩ []).category = [⟨"a", 1, 10, 1, 1⟩] ∧
    (viewersVarFilled
        (mkSummary [(⟨"a", 1, 10, 1, 1⟩ : Obs), ⟨"c", 2, 8, 2, 1⟩, ⟨"c", 2, 9, 2, 2⟩]
          "a" ⟨"a", 1, 10, 1, 1⟩ []) = 0 ∧
      (mkSummary [(⟨"a", 1, 10, 1, 1⟩ : Obs), ⟨"c", 2, 8, 2, 1⟩, ⟨"c", 2, 9, 2, 2⟩]
          "a" ⟨"a", 1, 10, 1, 1⟩ []).first = ⟨"a", 1, 10, 1, 1⟩ ∧
      (mkSummary [(⟨"a", 1, 10, 1, 1⟩ : Obs), ⟨"c", 2, 8, 2, 1⟩, ⟨"c", 2, 9, 2, 2⟩]
          "a" ⟨"a", 1, 10, 1, 1⟩ []).last = ⟨"a", 1, 10, 1, 1⟩ ∧
      (mkSummary [(⟨"a", 1, 10, 1, 1⟩ : Obs), ⟨"c", 2, 8, 2, 1⟩, ⟨"c", 2, 9, 2, 2⟩]
          "a" ⟨"a", 1, 10, 1, 1⟩ []).peak = ⟨"a", 1, 10, 1, 1⟩) := by
  have hps : partitionSorted
      [(⟨"a", 1, 10, 1, 1⟩ : Obs), ⟨"c", 2, 8, 2, 1⟩, ⟨"c", 2, 9, 2, 2⟩] "a" =
      [⟨"a", 1, 10, 1, 1⟩] := by decide
  have hsum : summarize
      [(⟨"a", 1, 10, 1, 1⟩ : Obs), ⟨"c", 2, 8, 2, 1⟩, ⟨"c", 2, 9, 2, 2⟩] "a" =
      some (mkSummary [(⟨"a", 1, 10, 1, 1⟩ : Obs), ⟨"c", 2, 8, 2, 1⟩, ⟨"c", 2, 9, 2, 2⟩]
        "a" ⟨"a", 1, 10, 1, 1⟩ []) := by
    unfold summarize; rw [hps]
  have ha : "a" ∈ groupNames
      [(⟨"a", 1, 10, 1, 1⟩ : Obs), ⟨"c", 2, 8, 2, 1⟩, ⟨"c", 2, 9, 2, 2⟩] := by decide
  have hmem : mkSummary [(⟨"a", 1, 10, 1, 1⟩ : Obs), ⟨"c", 2, 8, 2, 1⟩, ⟨"c", 2, 9, 2, 2⟩]
      "a" ⟨"a", 1, 10, 1, 1⟩ [] ∈
      buildSummary [(⟨"a", 1, 10, 1, 1⟩ : Obs), ⟨"c", 2, 8, 2, 1⟩, ⟨"c", 2, 9, 2, 2⟩] :=
    List.mem_filterMap.mpr ⟨"a", ha, hsum⟩
  have hp : partitionOf [(⟨"a", 1, 10, 1, 1⟩ : Obs), ⟨"c", 2, 8, 2, 1⟩, ⟨"c", 2, 9, 2, 2⟩]
      (mkSummary [(⟨"a", 1, 10, 1, 1⟩ : Obs), ⟨"c", 2, 8, 2, 1⟩, ⟨"c", 2, 9, 2, 2⟩]
        "a" ⟨"a", 1, 10, 1, 1⟩ []).category = [⟨"a", 1, 10, 1, 1⟩] := by decide
  exact ⟨hmem, hp, buildSummary_singleton_category _ _ _ hmem hp⟩

theorem sorted_head_timeLE_getLast {f : Obs} {rest : List Obs}
    (hs : List.Sorted timeLE (f :: rest)) :
    f.time ≤ ((f :: rest).getLast (List.cons_ne_nil f rest)).time := by
  have hmem := List.getLast_mem (List.cons_ne_nil f rest)
  rcases List.mem_cons.mp hmem with h | h
  · rw [h]
  · exact List.rel_of_sorted_cons hs _ h

theorem partitionOf_ne_nil {df : List Obs} {n : String} {f : Obs}
    {rest : List Obs} (hp : partitionSorted df n = f :: rest) :
    partitionOf df n ≠ [] := by
  intro hnil
  have := (partitionSorted_perm df n).length_eq
  rw [hp, hnil] at this
  simp at this

/-- C8: every summary row's first, last and peak observations belong to its
own category's partition of the input (no cross-category leakage), and the
first observation's snapshot time is at most the last's. -/
theorem buildSummary_partition_invariants (df : List Obs) (s : CategorySummary)
    (hs : s ∈ buildSummary df) :
    s.first ∈ partitionOf df s.category ∧
    s.last ∈ partitionOf df s.category ∧
    s.peak ∈ partitionOf df s.category ∧
    s.first.time ≤ s.last.time := by
  rcases exists_of_mem_buildSummary hs with ⟨n, f, rest, hp, rfl⟩
  rw [mkSummary_category, mkSummary_first, mkSummary_last, mkSummary_peak]
  have hsorted : List.Sorted timeLE (f :: rest) := hp ▸ partitionSorted_sorted df n
  have hmemPS : ∀ o, o ∈ partitionSorted df n → o ∈ partitionOf df n := fun o ho =>
    (partitionSorted_perm df n).mem_iff.mp ho
  refine ⟨?_, ?_, ?_, ?_⟩
  · exact hmemPS f (hp ▸ List.mem_cons_self f rest)
  · refine hmemPS _ ?_
    rw [hp]
    exact List.getLast_mem _
  · cases hm : firstMaxBy (partitionOf df n) with
    | none => exact absurd (firstMaxBy_eq_none hm) (partitionOf_ne_nil hp)
    | some b => simpa using firstMaxBy_mem hm
  · exact sorted_head_timeLE_getLast hsorted

/-- Witness for C8 at the concrete one-row frame `[⟨"a", 2, 10, 1, 5⟩]`. -/
theorem buildSummary_partition_invariants_witness :
    (mkSummary [(⟨"a", 2, 10, 1, 5⟩ : Obs)] "a" ⟨"a", 2, 10, 1, 5⟩ [] ∈
        buildSummary [(⟨"a", 2, 10, 1, 5⟩ : Obs)]) ∧
    ((mkSummary [(⟨"a", 2, 10, 1, 5⟩ : Obs)] "a" ⟨"a", 2, 10, 1, 5⟩ []).first ∈
        partitionOf [(⟨"a", 2, 10, 1, 5⟩ : Obs)]
          (mkSummary [(⟨"a", 2, 10, 1, 5⟩ : Obs)] "a" ⟨"a", 2, 10, 1, 5⟩ []).category ∧
      (mkSummary [(⟨"a", 2, 10, 1, 5⟩ : Obs)] "a" ⟨"a", 2, 10, 1, 5⟩ []).last ∈
        partitionOf [(⟨"a", 2, 10, 1, 5⟩ : Obs)]
          (mkSummary [(⟨"a", 2, 10, 1, 5⟩ : Obs)] "a" ⟨"a", 2, 10, 1, 5⟩ []).category ∧
      (mkSummary [(⟨"a", 2, 10, 1, 5⟩ : Obs)] "a" ⟨"a", 2, 10, 1, 5⟩ []).peak ∈
        partitionOf [(⟨"a", 2, 10, 1, 5⟩ : Obs)]
          (mkSummary [(⟨"a", 2, 10, 1, 5⟩ : Obs)] "a" ⟨"a", 2, 10, 1, 5⟩ []).category ∧
      (mkSummary [(⟨"a", 2, 10, 1, 5⟩ : Obs)] "a" ⟨"a", 2, 10, 1, 5⟩ []).first.time ≤
        (mkSummary [(⟨"a", 2, 10, 1, 5⟩ : Obs)] "a" ⟨"a", 2, 10, 1, 5⟩ []).last.time) := by
  have hmem : mkSummary [(⟨"a", 2, 10, 1, 5⟩ : Obs)] "a" ⟨"a", 2, 10, 1, 5⟩ [] ∈
      buildSummary [(⟨"a", 2, 10, 1, 5⟩ : Obs)] := by
    rw [buildSummary_singleton]
    exact List.mem_cons_self _ _
  exact ⟨hmem, buildSummary_partition_invariants _ _ hmem⟩

/-- C5: every summary row's growth score equals
`growth_rate * 50 + (rank_delta / first.rank) * 30 + mean_competition_index * 2`
with the guarded denominator, and in particular a zero first rank does not
raise: the denominator is then 1 and the middle term is `rank_delta * 30`. -/
theorem growthScore_formula (df : List Obs) (s : CategorySummary)
    (hs : s ∈ buildSummary df) :
    s.growthScore = s.growthRate * 50 +
      ((s.rankDelta : ℚ) /
        (if s.first.rank = 0 then 1 else (s.first.rank : ℚ))) * 30 +
      s.meanComp * 2 ∧
    (s.first.rank = 0 → s.growthScore =
      s.growthRate * 50 + (s.rankDelta : ℚ) * 30 + s.meanComp * 2) := by
  rcases exists_of_mem_buildSummary hs with ⟨n, f, rest, hp, rfl⟩
  constructor
  · rw [mkSummary_first, mkSummary_growthScore]
  · intro h0
    rw [mkSummary_first] at h0
    rw [mkSummary_growthScore, h0]
    norm_num

/-- Witness for C5 at the concrete one-row frame `[⟨"a", 1, 10, 0, 1⟩]`,
whose first rank is 0 and exercises the guarded denominator. -/
theorem growthScore_formula_witness :
    (mkSummary [(⟨"a", 1, 10, 0, 1⟩ : Obs)] "a" ⟨"a", 1, 10, 0, 1⟩ [] ∈
        buildSummary [(⟨"a", 1, 10, 0, 1⟩ : Obs)]) ∧
    ((mkSummary [(⟨"a", 1, 10, 0, 1⟩ : Obs)] "a" ⟨"a", 1, 10, 0, 1⟩ []).growthScore =
        (mkSummary [(⟨"a", 1, 10, 0, 1⟩ : Obs)] "a" ⟨"a", 1, 10, 0, 1⟩ []).growthRate * 50 +
          (((mkSummary [(⟨"a", 1, 10, 0, 1⟩ : Obs)] "a" ⟨"a", 1, 10, 0, 1⟩ []).rankDelta : ℚ) /
            (if (mkSummary [(⟨"a", 1, 10, 0, 1⟩ : Obs)] "a" ⟨"a", 1, 10, 0, 1⟩ []).first.rank = 0
              then 1
              else ((mkSummary [(⟨"a", 1, 10, 0, 1⟩ : Obs)] "a" ⟨"a", 1, 10, 0, 1⟩ []).first.rank : ℚ))) * 30 +
          (mkSummary [(⟨"a", 1, 10, 0, 1⟩ : Obs)] "a" ⟨"a", 1, 10, 0, 1⟩ []).meanComp * 2 ∧
      ((mkSummary [(⟨"a", 1, 10, 0, 1⟩ : Obs)] "a" ⟨"a", 1, 10, 0, 1⟩ []).first.rank = 0 →
        (mkSummary [(⟨"a", 1, 10, 0, 1⟩ : Obs)] "a" ⟨"a", 1, 10, 0, 1⟩ []).growthScore =
          (mkSummary [(⟨"a", 1, 10, 0, 1⟩ : Obs)] "a" ⟨"a", 1, 10, 0, 1⟩ []).growthRate * 50 +
            ((mkSummary [(⟨"a", 1, 10, 0, 1⟩ : Obs)] "a" ⟨"a", 1, 10, 0, 1⟩ []).rankDelta : ℚ) * 30 +
            (mkSummary [(⟨"a", 1, 10, 0, 1⟩ : Obs)] "a" ⟨"a", 1, 10, 0, 1⟩ []).meanComp * 2)) := by
  have hmem : mkSummary [(⟨"a", 1, 10, 0, 1⟩ : Obs)] "a" ⟨"a", 1, 10, 0, 1⟩ [] ∈
      buildSummary [(⟨"a", 1, 10, 0, 1⟩ : Obs)] := by
    rw [buildSummary_singleton]
    exact List.mem_cons_self _ _
  exact ⟨hmem, growthScore_formula _ _ hmem⟩

/-- C3, counterexample: two rows of one category tie on the maximum viewer
count, with the later-snapshot row first in the frame; the chosen peak is
that later-snapshot row (`idxmax` keeps the frame's row order on ties), not
the earliest-snapshot tie the claim requires for arbitrary arrival order. -/
theorem peak_tiebreak_cx :
    (buildSummary [⟨"a", 1, 10, 1, 2⟩, ⟨"a", 1, 10, 1, 1⟩]).map
        CategorySummary.peak = [⟨"a", 1, 10, 1, 2⟩] ∧
    (⟨"a", 1, 10, 1, 1⟩ : Obs) ∈
      partitionOf [⟨"a", 1, 10, 1, 2⟩, ⟨"a", 1, 10, 1, 1⟩] "a" ∧
    (⟨"a", 1, 10, 1, 1⟩ : Obs).viewers = (⟨"a", 1, 10, 1, 2⟩ : Obs).viewers ∧
    (⟨"a", 1, 10, 1, 1⟩ : Obs).time < (⟨"a", 1, 10, 1, 2⟩ : Obs).time := by
  refine ⟨by decide, by decide, by decide, by decide⟩

/-- C3 (amended): the peak belongs to its category's partition and attains
the maximum viewer count there; among ties it is the first in the frame's
row order, so whenever the frame is sorted by snapshot time ascending (as
the loader supplies it, reading files in name order) the peak has the
earliest snapshot time among the tied rows. -/
theorem peak_characterization (df : List Obs) (s : CategorySummary)
    (hs : s ∈ buildSummary df) (hsort : List.Sorted timeLE df) :
    s.peak ∈ partitionOf df s.category ∧
    (∀ o ∈ partitionOf df s.category, o.viewers ≤ s.peak.viewers) ∧
    (∀ o ∈ partitionOf df s.category, o.viewers = s.peak.viewers →
      s.peak.time ≤ o.time) := by
  rcases exists_of_mem_buildSummary hs with ⟨n, f, rest, hp, rfl⟩
  rw [mkSummary_category, mkSummary_peak]
  cases hm : firstMaxBy (partitionOf df n) with
  | none => exact absurd (firstMaxBy_eq_none hm) (partitionOf_ne_nil hp)
  | some b =>
    have hsortedPart : List.Sorted timeLE (partitionOf df n) :=
      List.Pairwise.sublist (List.filter_sublist _) hsort
    refine ⟨by simpa using firstMaxBy_mem hm, ?_, ?_⟩
    · simpa using firstMaxBy_max hm
    · simpa using firstMaxBy_min_time hsortedPart hm

/-- Witness for C3 (amended) at the concrete one-row frame
`[⟨"b", 3, 9, 2, 4⟩]`, which is trivially time-sorted. -/
theorem peak_characterization_witness :
    (mkSummary [(⟨"b", 3, 9, 2, 4⟩ : Obs)] "b" ⟨"b", 3, 9, 2, 4⟩ [] ∈
        buildSummary [(⟨"b", 3, 9, 2, 4⟩ : Obs)]) ∧
    List.Sorted timeLE [(⟨"b", 3, 9, 2, 4⟩ : Obs)] ∧
    ((mkSummary [(⟨"b", 3, 9, 2, 4⟩ : Obs)] "b" ⟨"b", 3, 9, 2, 4⟩ []).peak ∈
        partitionOf [(⟨"b", 3, 9, 2, 4⟩ : Obs)]
          (mkSummary [(⟨"b", 3, 9, 2, 4⟩ : Obs)] "b" ⟨"b", 3, 9, 2, 4⟩ []).category ∧
      (∀ o ∈ partitionOf [(⟨"b", 3, 9, 2, 4⟩ : Obs)]
          (mkSummary [(⟨"b", 3, 9, 2, 4⟩ : Obs)] "b" ⟨"b", 3, 9, 2, 4⟩ []).category,
        o.viewers ≤ (mkSummary [(⟨"b", 3, 9, 2, 4⟩ : Obs)] "b" ⟨"b", 3, 9, 2, 4⟩ []).peak.viewers) ∧
      (∀ o ∈ partitionOf [(⟨"b", 3, 9, 2, 4⟩ : Obs)]
          (mkSummary [(⟨"b", 3, 9, 2, 4⟩ : Obs)] "b" ⟨"b", 3, 9, 2, 4⟩ []).category,
        o.viewers = (mkSummary [(⟨"b", 3, 9, 2, 4⟩ : Obs)] "b" ⟨"b", 3, 9, 2, 4⟩ []).peak.viewers →
          (mkSummary [(⟨"b", 3, 9, 2, 4⟩ : Obs)] "b" ⟨"b", 3, 9, 2, 4⟩ []).peak.time ≤ o.time)) := by
  have hmem : mkSummary [(⟨"b", 3, 9, 2, 4⟩ : Obs)] "b" ⟨"b", 3, 9, 2, 4⟩ [] ∈
      buildSummary [(⟨"b", 3, 9, 2, 4⟩ : Obs)] := by
    rw [buildSummary_singleton]
    exact List.mem_cons_self _ _
  have hsort : List.Sorted timeLE [(⟨"b", 3, 9, 2, 4⟩ : Obs)] := by decide
  exact ⟨hmem, hsort, peak_characterization _ _ hmem hsort⟩

/-- C9, counterexample: two summary rows tie on cumulative viewers and the
name-descending one comes first in the table; the source's
`sort_values(metric, ascending=False).head(top_n)` has no name tie-break, so
the top-1 result is the "b" row, not the name-ascending "a" row the claim
requires. -/
theorem topN_tiebreak_cx :
    (topN (fun s => (s.sumViewers : ℚ)) 1
        [mkSummary [(⟨"b", 1, 10, 1, 1⟩ : Obs)] "b" ⟨"b", 1, 10, 1, 1⟩ [],
          mkSummary [(⟨"a", 1, 10, 1, 1⟩ : Obs)] "a" ⟨"a", 1, 10, 1, 1⟩ []]).map
        CategorySummary.category = ["b"] ∧
    (mkSummary [(⟨"a", 1, 10, 1, 1⟩ : Obs)] "a" ⟨"a", 1, 10, 1, 1⟩ []).sumViewers =
      (mkSummary [(⟨"b", 1, 10, 1, 1⟩ : Obs)] "b" ⟨"b", 1, 10, 1, 1⟩ []).sumViewers ∧
    ("a" : String) < "b" := by
  refine ⟨?_, by decide, by rw [String.lt_iff_toList_lt]; decide⟩
  have hkey :
      ((mkSummary [(⟨"a", 1, 10, 1, 1⟩ : Obs)] "a" ⟨"a", 1, 10, 1, 1⟩ []).sumViewers : ℚ) ≤
        ((mkSummary [(⟨"b", 1, 10, 1, 1⟩ : Obs)] "b" ⟨"b", 1, 10, 1, 1⟩ []).sumViewers : ℚ) := by
    norm_num [mkSummary]
  simp [topN, sortDescBy, List.insertionSort, List.orderedInsert, keyGE, hkey,
    mkSummary_category]

/-- C9 (amended): sorting the summary table by a numeric field descending
and truncating to `n` returns `min n |table|` rows, sorted descending by
that field, forming with the dropped rows a permutation of the table, and
every dropped row's field value is at most every kept row's; ties between
equal values keep the table's row order (the sort is stable), with no
category-name tie-break in the source. -/
theorem topN_characterization (key : CategorySummary → ℚ) (n : Nat)
    (l : List CategorySummary) :
    (topN key n l).length = min n l.length ∧
    List.Sorted (keyGE key) (topN key n l) ∧
    List.Perm (topN key n l ++ (sortDescBy key l).drop n) l ∧
    keyDominates key (topN key n l) ((sortDescBy key l).drop n) := by
  refine ⟨?_, ?_, ?_, ?_⟩
  · rw [topN, List.length_take, sortDescBy,
      (List.perm_insertionSort (keyGE key) l).length_eq]
  · exact List.Pairwise.sublist (List.take_sublist _ _)
      (List.sorted_insertionSort (keyGE key) l)
  · rw [topN, List.take_append_drop]
    exact List.perm_insertionSort (keyGE key) l
  · intro a ha b hb
    exact (List.sorted_insertionSort (keyGE key) l).rel_of_mem_take_of_mem_drop ha hb

end TwitchRanking
